import Mathlib

/-!
Verification development for the acorn runtime controllers:
the resolved-offerings resolver (pkg/controller/resolvedofferings)
and the quota controller (pkg/controller/quota).

Modelling conventions:
* Go maps are association lists (`List (String × α)`) with
  first-occurrence lookup (`getEntry`) and in-place update (`setEntry`),
  which matches Go map read/assignment semantics on finite maps.
* Go `int`/`int64` values are `Int`; `*int64` is `Option Int`.
* `float64` CPU scalers are modelled as `Rat`: the controllers only
  ever copy them, never compute with them, so any type with decidable
  equality is a faithful carrier.
* Fallible external calls are inputs of type `Except`; the cluster
  client, the compute-class registry and the quantity parser are
  collaborators whose results are parameters of the embedded functions.
-/

namespace Acorn

/-- Go map read: value of the first entry carrying the key, if any. -/
def getEntry (k : String) : List (String × α) → Option α
  | [] => none
  | (k1, v1) :: rest => if k = k1 then some v1 else getEntry k rest

/-- Go map write: replace the first entry carrying the key, else append. -/
def setEntry (k : String) (v : α) : List (String × α) → List (String × α)
  | [] => [(k, v)]
  | (k1, v1) :: rest => if k = k1 then (k, v) :: rest else (k1, v1) :: setEntry k v rest

/-- The keys of an association-list map, in order. -/
def mapKeys (m : List (String × α)) : List String := m.map Prod.fst

/-- v1.Container: the fields of a container/job/sidecar spec that the
resolver and the quota engine read (Memory, Scale, Sidecars). -/
inductive Container where
  | mk (memory : Option Int) (scale : Option Int) (sidecars : List (String × Container))

/-- Container.Memory (image-declared default, `*int64`). -/
def Container.memory : Container → Option Int
  | .mk m _ _ => m

/-- Container.Scale (`*int32`). -/
def Container.scale : Container → Option Int
  | .mk _ s _ => s

/-- Container.Sidecars. -/
def Container.sidecars : Container → List (String × Container)
  | .mk _ _ s => s

/-- v1.ContainerResolvedOffering: {Class, Memory, CPUScaler}. -/
structure ContainerResolvedOffering where
  className : String
  memory : Option Int
  cpuScaler : Option Rat
deriving DecidableEq

/-- The Go zero value of ContainerResolvedOffering, produced by reading
a missing key of a Go map. -/
def zeroOffering : ContainerResolvedOffering := ⟨"", none, none⟩

/-- The resolved-offerings map `Status.ResolvedOfferings.Containers`. -/
abbrev OMap := List (String × ContainerResolvedOffering)

/-- Go map read with zero value, `Containers[k]`. -/
def offAt (m : OMap) (k : String) : ContainerResolvedOffering :=
  (getEntry k m).getD zeroOffering

/-- adminv1.ProjectComputeClassInstance: the fields the resolver reads.
`memory` stands for the class's memory description, whose default
quantity is obtained through the quantity parser. -/
structure ComputeClass where
  name : String
  memory : String
  cpuScaler : Rat
deriving DecidableEq

/-- Error shape of the compute-class registry lookup: a NotFound miss or
any other lookup failure. -/
inductive CCLookupErr where
  | notFound
  | other (e : String)
deriving DecidableEq

/-- External collaborator results consumed by `resolveComputeClasses`.
All are fixed inputs of one reconciliation tick. -/
structure ResolverDeps where
  /-- Modelled from the spec: `adminv1.GetDefaultComputeClass`, absent
  from src/, resolves the tenant-configured default class name; per the
  spec a NotFound miss is handled inside it (the default compute class
  is treated as absent, yielding an empty name), so only unexpected
  lookup failures surface here. -/
  getDefaultComputeClass : Except String String
  /-- `computeclasses.GetAsProjectComputeClassInstance defaultCC`:
  returns the class definition (or none), a NotFound error, or another
  lookup failure. -/
  getComputeClass : String → Except CCLookupErr (Option ComputeClass)
  /-- Modelled from the spec: `computeclasses.GetClassForWorkload`,
  absent from src/, looks up a class specific to this workload via its
  own override key with the spec's override precedence; none when no
  class resolves (NotFound collapses into absence inside it). -/
  getClassForWorkload : String → Container → Except String (Option ComputeClass)
  /-- Modelled from the spec: `computeclasses.ParseComputeClassMemoryInternal`
  followed by `.Def.Value()`, absent from src/: parses the class's
  memory quantity strings and yields the default quantity, failing with
  a parse error on malformed input. -/
  parseComputeClassMemory : String → Except String Int

/-- The AppInstance fields read by the resolver: the operator override
maps `Spec.Memory` and `Spec.ComputeClasses` (Go maps, so a missing key
reads as nil/absent) and the expanded workload lists of
`Status.AppSpec`. -/
structure AppInstance where
  specMemory : String → Option Int
  specComputeClasses : String → Option String
  containers : List (String × Container)
  jobs : List (String × Container)

/-- First step of `resolveComputeClasses`: the default compute-class
name is the operator override at key "" when present, else the
tenant-configured default. -/
def defaultCCName (D : ResolverDeps) (app : AppInstance) : Except String String :=
  match app.specComputeClasses "" with
  | some value => .ok value
  | none => D.getDefaultComputeClass

/-- Body of the loop of `resolveComputeClass` (part_000 lines 76-117):
compute-class selection and the memory priority chain for one workload. -/
def resolveWorkload (D : ResolverDeps) (configDefault : Option Int) (app : AppInstance)
    (defaultCC : Option ComputeClass) (defaultCCN : String)
    (name : String) (container : Container) : Except String ContainerResolvedOffering := do
  let ccw ← D.getClassForWorkload name container
  let cc := match ccw with
    | some c => some c
    | none => defaultCC
  let ccName : String := match cc with
    | some c => c.name
    | none => defaultCCN
  let cpuScaler : Option Rat := match cc with
    | some c => some c.cpuScaler
    | none => none
  let memory : Option Int ←
    if (app.specMemory name).isSome then
      pure (app.specMemory name)
    else if (app.specMemory "").isSome then
      pure (app.specMemory "")
    else if container.memory.isSome then
      pure container.memory
    else
      match cc with
      | some c => do
        let d ← D.parseComputeClassMemory c.memory
        pure (some d)
      | none => pure configDefault
  pure ⟨ccName, memory, cpuScaler⟩

/-- `resolveComputeClass`: iterate the workloads, writing the resolved
offering at the workload's key and at each of its sidecars' keys. -/
def resolveComputeClass (D : ResolverDeps) (configDefault : Option Int) (app : AppInstance)
    (defaultCC : Option ComputeClass) (defaultCCN : String) :
    List (String × Container) → OMap → Except String OMap
  | [], m => .ok m
  | (name, container) :: rest, m => do
    let off ← resolveWorkload D configDefault app defaultCC defaultCCN name container
    let m := setEntry name off m
    let m := container.sidecars.foldl (fun m sc => setEntry sc.1 off m) m
    resolveComputeClass D configDefault app defaultCC defaultCCN rest m

/-- `resolveComputeClasses`: seed the deployment-wide default entry at
key "" and then resolve every container and job individually.
`inc` is the incoming `Status.ResolvedOfferings.Containers` map (nil is
initialised to the empty map); `configDefault` is
`cfg.WorkloadMemoryDefault`. -/
def resolveComputeClasses (D : ResolverDeps) (configDefault : Option Int)
    (app : AppInstance) (inc : Option OMap) : Except String OMap := do
  let m : OMap := match inc with
    | none => []
    | some m0 => m0
  let defaultCC ← defaultCCName D app
  let m := setEntry "" ⟨defaultCC, configDefault, none⟩ m
  let cc : Option ComputeClass ←
    match D.getComputeClass defaultCC with
    | .ok c => pure c
    | .error .notFound => pure none
    | .error (.other e) => .error e
  let m ← match cc with
    | none => pure m
    | some c => do
      let d ← D.parseComputeClassMemory c.memory
      pure (setEntry "" ⟨(offAt m "").className, some d, some c.cpuScaler⟩ m)
  let m := match app.specMemory "" with
    | some v => setEntry "" ⟨(offAt m "").className, some v, (offAt m "").cpuScaler⟩ m
    | none => m
  let m ← resolveComputeClass D configDefault app cc defaultCC app.containers m
  let m ← resolveComputeClass D configDefault app cc defaultCC app.jobs m
  pure m

/-! ### Quota controller (pkg/controller/quota/quota.go) -/

/-- adminv1.QuotaRequestResources: the requested-resources vector.
Quantities (CPU, memory, volume storage) are modelled as `Int`. -/
structure QuotaRequestResources where
  containers : Int
  jobs : Int
  images : Int
  volumes : Int
  secrets : Int
  cpu : Int
  memory : Int
  volumeStorage : Int
deriving DecidableEq

/-- The Go zero value of QuotaRequestResources. -/
def zeroResources : QuotaRequestResources := ⟨0, 0, 0, 0, 0, 0, 0, 0⟩

/-- The condition the quota authority writes on the QuotaRequest
(`Status.Condition(adminv1.QuotaRequestCondition)`); reading it on a
zero-valued QuotaRequest yields the zero condition. -/
structure QuotaCondition where
  success : Bool
  error : Bool
  message : String
deriving DecidableEq

/-- The Go zero value of the authority's condition. -/
def zeroCondition : QuotaCondition := ⟨false, false, ""⟩

/-- adminv1.QuotaRequestInstance: the fields `WaitForAllocation` reads. -/
structure QuotaRequestInstance where
  specResources : QuotaRequestResources
  allocatedResources : QuotaRequestResources
  condition : QuotaCondition
deriving DecidableEq

/-- The Go zero value of QuotaRequestInstance, left in place when the
client Get fails. -/
def zeroQuotaRequest : QuotaRequestInstance := ⟨zeroResources, zeroResources, zeroCondition⟩

/-- Modelled from the spec: `QuotaRequestResources.Equals`, absent from
src/, is structural equality of the resources vector. -/
def resourcesEqual (a b : QuotaRequestResources) : Bool := a = b

/-- One operation of the condition reporter (condition.Setter):
report success, error with a message, or unknown with a message. -/
inductive ConditionUpdate where
  | success
  | error (msg : String)
  | unknown (msg : String)
deriving DecidableEq

/-- Error shape of the QuotaRequest Get: NotFound or any other failure. -/
inductive GetErr where
  | notFound
  | other (e : String)
deriving DecidableEq

/-- Outcome of one `WaitForAllocation` tick: the condition write (none =
condition left untouched), the error returned to the reconciliation
framework, and whether the QuotaRequest was read from the cluster. -/
structure WaitOutcome where
  update : Option ConditionUpdate
  ret : Option String
  readQuotaRequest : Bool
deriving DecidableEq

/-- `WaitForAllocation`: drive the AppInstanceConditionQuota condition
from the QuotaRequest's allocation state. `enforced` is the result of
`isEnforced` (project lookup), `get` the result of the client Get of the
QuotaRequest keyed by the appInstance's identity. -/
def waitForAllocation (enforced : Except String Bool)
    (get : Except GetErr QuotaRequestInstance) : WaitOutcome :=
  match enforced with
  | .error e => ⟨some (.error e), some e, false⟩
  | .ok false => ⟨some .success, none, false⟩
  | .ok true =>
    match get with
    | .error (.other e) => ⟨none, some e, true⟩
    | _ =>
      let quotaRequest := match get with
        | .ok qr => qr
        | .error _ => zeroQuotaRequest
      let getFailed := match get with
        | .ok _ => false
        | .error _ => true
      let cond := quotaRequest.condition
      if cond.error then
        ⟨some (.error ("quota allocation failed: " ++ cond.message)), none, true⟩
      else if getFailed || !resourcesEqual quotaRequest.specResources quotaRequest.allocatedResources then
        ⟨some (.unknown "waiting for quota allocation"), none, true⟩
      else if cond.success then
        ⟨some .success, none, true⟩
      else
        ⟨none, none, true⟩

/-- v1.VolumeBinding: {Target, Volume, Size}. -/
structure VolumeBinding where
  target : String
  volume : String
  size : String
deriving DecidableEq

/-- v1.SecretBinding: {Target, Secret}. -/
structure SecretBinding where
  target : String
  secret : String
deriving DecidableEq

/-- The AppInstance fields the quota controller reads: the expanded
`Status.AppSpec` (containers, jobs, volumes with their Size, secrets,
images), the `Spec` bindings, and `Status.Scheduling` (requirements
request values for "cpu" and "memory", a Go map with comma-ok lookup). -/
structure QuotaAppInstance where
  containers : List (String × Container)
  jobs : List (String × Container)
  volumes : List (String × String)
  secrets : List String
  images : List String
  specVolumes : List VolumeBinding
  specSecrets : List SecretBinding

/-- The request values of one workload's scheduling requirements:
`Requirements.Requests` at keys "cpu" and "memory" (a missing key of the
Go ResourceList reads as the zero quantity). -/
structure Requirements where
  cpu : Int
  memory : Int
deriving DecidableEq

/-- A missing Scheduling entry contributes zero requirements. -/
def zeroRequirements : Requirements := ⟨0, 0⟩

/-- `replicas`: number of replicas from a `*int32` scale; nil is 1. -/
def replicas (s : Option Int) : Int :=
  match s with
  | some v => v
  | none => 1

/-- `addContainers`: each top-level container adds its replica count to
the container counter. -/
def addContainers (containers : List (String × Container))
    (q : QuotaRequestResources) : QuotaRequestResources :=
  match containers with
  | [] => q
  | (_, container) :: rest =>
    addContainers rest { q with containers := q.containers + replicas container.scale }

/-- `addCompute`: for each workload, look up its scheduling requirements
(by its own name, falling back to the deployment-wide key ""), add the
cpu/memory requests once per replica of the workload's own scale, then
recurse over its sidecars. -/
def addCompute (sched : String → Option Requirements) :
    List (String × Container) → QuotaRequestResources → QuotaRequestResources
  | [], q => q
  | (name, Container.mk _ scale sidecars) :: rest, q =>
    let requirements := match sched name with
      | some specific => specific
      | none => match sched "" with
        | some all => all
        | none => zeroRequirements
    let q := (List.range (replicas scale).toNat).foldl
      (fun q _ => { q with
        cpu := q.cpu + requirements.cpu,
        memory := q.memory + requirements.memory }) q
    let q := addCompute sched sidecars q
    addCompute sched rest q
termination_by l _ => sizeOf l
decreasing_by
  all_goals simp_wf
  all_goals omega

/-- `boundVolumeSize`: whether a binding targets the volume with an
empty source-volume reference; if so, the binding's size. -/
def boundVolumeSize (name : String) : List VolumeBinding → Bool × String
  | [] => (false, "0")
  | binding :: rest =>
    if binding.target = name ∧ binding.volume = "" then (true, binding.size)
    else boundVolumeSize name rest

/-- `boundSecret`: whether a binding targets the secret with an empty
source-secret reference. -/
def boundSecret (name : String) : List SecretBinding → Bool
  | [] => false
  | binding :: rest =>
    if binding.target = name ∧ binding.secret = "" then true
    else boundSecret name rest

/-- The effective size of a declared volume: the declared size, unless
a binding targets the volume with an empty source-volume reference, in
which case the binding's size replaces it. -/
def effectiveSize (name declaredSize : String) (bindings : List VolumeBinding) : String :=
  match boundVolumeSize name bindings with
  | (true, boundSize) => boundSize
  | (false, _) => declaredSize

/-- The volume half of `addStorage`: effective size (binding override),
skip of "" and "0", quantity parsing, and the storage sum. `parse` is
the collaborator quantity parser (`resource.ParseQuantity`). -/
def addVolumeStorage (parse : String → Option Int) (bindings : List VolumeBinding) :
    List (String × String) → QuotaRequestResources → Except String QuotaRequestResources
  | [], q => .ok q
  | (name, declaredSize) :: rest, q =>
    let size := effectiveSize name declaredSize bindings
    if size = "" ∨ size = "0" then
      addVolumeStorage parse bindings rest q
    else
      match parse size with
      | none => .error ("quantities must match the regular expression: " ++ size)
      | some parsedSize =>
        addVolumeStorage parse bindings rest
          { q with volumeStorage := q.volumeStorage + parsedSize }

/-- The secret half of `addStorage`: each declared secret not bound to
an existing one contributes one unit. -/
def addSecrets (bindings : List SecretBinding) :
    List String → QuotaRequestResources → QuotaRequestResources
  | [], q => q
  | name :: rest, q =>
    if boundSecret name bindings then addSecrets bindings rest q
    else addSecrets bindings rest { q with secrets := q.secrets + 1 }

/-- `addStorage`: volumes then secrets. -/
def addStorage (parse : String → Option Int) (app : QuotaAppInstance)
    (q : QuotaRequestResources) : Except String QuotaRequestResources := do
  let q ← addVolumeStorage parse app.specVolumes app.volumes q
  .ok (addSecrets app.specSecrets app.secrets q)

/-- Outcome of one `EnsureQuotaRequest` tick: the desired QuotaRequest's
spec.resources when one is emitted, the condition write, and the error
returned to the framework. -/
structure EnsureOutcome where
  quotaRequest : Option QuotaRequestResources
  update : Option ConditionUpdate
  ret : Option String
deriving DecidableEq

/-- `EnsureQuotaRequest`: when quota is enforced, build the QuotaRequest
from raw counts (jobs, volumes, images), container replica counts,
compute sums of the top-level containers (jobs deliberately excluded),
and storage; a storage error sets the condition to error and is
returned; otherwise the desired object is emitted. -/
def ensureQuotaRequest (enforced : Except String Bool) (app : QuotaAppInstance)
    (sched : String → Option Requirements) (parse : String → Option Int) : EnsureOutcome :=
  match enforced with
  | .error e => ⟨none, none, some e⟩
  | .ok false => ⟨none, none, none⟩
  | .ok true =>
    let q := { zeroResources with
      jobs := (app.jobs.length : Int),
      volumes := (app.volumes.length : Int),
      images := (app.images.length : Int) }
    let q := addContainers app.containers q
    let q := addCompute sched app.containers q
    match addStorage parse app q with
    | .error e => ⟨none, some (.error e), some e⟩
    | .ok q => ⟨some q, none, none⟩

/-! ### Specification-side definitions and proof infrastructure -/

/-- The scheduling-requirements lookup of `addCompute`: the workload's
own name, falling back to the deployment-wide key "", else zero. -/
def schedLookup (sched : String → Option Requirements) (name : String) : Requirements :=
  match sched name with
  | some specific => specific
  | none => match sched "" with
    | some all => all
    | none => zeroRequirements

/-- The (cpu, memory) sums that `addCompute` actually accumulates: each
workload contributes its looked-up requirements once per replica of its
own scale, recursing into sidecars. -/
def computeSums (sched : String → Option Requirements) :
    List (String × Container) → Int × Int
  | [] => (0, 0)
  | (name, Container.mk _ scale sidecars) :: rest =>
    let r := schedLookup sched name
    let side := computeSums sched sidecars
    let restSums := computeSums sched rest
    (((replicas scale).toNat : Int) * r.cpu + side.1 + restSums.1,
     ((replicas scale).toNat : Int) * r.memory + side.2 + restSums.2)
termination_by l => sizeOf l
decreasing_by
  all_goals simp_wf
  all_goals omega

/-- The compute sums as claim C3 words them: every top-level container
contributes its requirements once per each of its scale replicas, and
each of its sidecars contributes its own looked-up requirements once
per PARENT replica. -/
def claimedComputeSums (sched : String → Option Requirements)
    (containers : List (String × Container)) : Int × Int :=
  containers.foldl (fun acc nc =>
    let n : Int := ((replicas nc.2.scale).toNat : Int)
    let own := schedLookup sched nc.1
    let side := nc.2.sidecars.foldl (fun acc2 sc =>
      let r := schedLookup sched sc.1
      (acc2.1 + n * r.cpu, acc2.2 + n * r.memory)) ((0 : Int), (0 : Int))
    (acc.1 + n * own.cpu + side.1, acc.2 + n * own.memory + side.2)) (0, 0)

/-- Left-biased choice on options, used to state the memory priority
chain of claim C1. -/
def orElseO (a b : Option α) : Option α :=
  match a with
  | some v => some v
  | none => b

/-- The last value written for a key by a sequence of map writes. -/
def lastVal (w : List (String × α)) (k : String) : Option α :=
  match w with
  | [] => none
  | (k1, v1) :: rest =>
    match lastVal rest k with
    | some v => some v
    | none => if k = k1 then some v1 else none

/-- Apply a sequence of map writes in order. -/
def applyWrites (w : List (String × α)) (m : List (String × α)) : List (String × α) :=
  w.foldl (fun m kv => setEntry kv.1 kv.2 m) m

/-- The writes one workload performs: its own entry, then one entry per
sidecar, all carrying the same resolved offering. -/
def workloadWrites (name : String) (container : Container)
    (off : ContainerResolvedOffering) : List (String × ContainerResolvedOffering) :=
  (name, off) :: container.sidecars.map (fun sc => (sc.1, off))

/-- The write sequence of `resolveComputeClass` over a workload list. -/
def loopWriteSeq (D : ResolverDeps) (configDefault : Option Int) (app : AppInstance)
    (defaultCC : Option ComputeClass) (defaultCCN : String) :
    List (String × Container) → Except String (List (String × ContainerResolvedOffering))
  | [] => .ok []
  | (name, container) :: rest => do
    let off ← resolveWorkload D configDefault app defaultCC defaultCCN name container
    let w ← loopWriteSeq D configDefault app defaultCC defaultCCN rest
    .ok (workloadWrites name container off ++ w)

/-- The keys `resolveComputeClass` writes, in order. -/
def loopWriteKeys (l : List (String × Container)) : List String :=
  l.flatMap (fun nc => nc.1 :: mapKeys nc.2.sidecars)

/-- The full write sequence of `resolveComputeClasses`: the seeding
writes at key "" followed by the per-workload writes. Every written
value is a function of the resolver's inputs alone. -/
def resolveWriteSeq (D : ResolverDeps) (configDefault : Option Int)
    (app : AppInstance) : Except String (List (String × ContainerResolvedOffering)) := do
  let defaultCC ← defaultCCName D app
  let w0 : List (String × ContainerResolvedOffering) :=
    [("", ⟨defaultCC, configDefault, none⟩)]
  let cc : Option ComputeClass ←
    match D.getComputeClass defaultCC with
    | .ok c => pure c
    | .error .notFound => pure none
    | .error (.other e) => .error e
  let w1 ← match cc with
    | none => pure w0
    | some c => do
      let d ← D.parseComputeClassMemory c.memory
      pure (w0 ++ [("", ⟨defaultCC, some d, some c.cpuScaler⟩)])
  let w2 := match app.specMemory "" with
    | some v =>
      w1 ++ [("", ⟨defaultCC, some v,
        match cc with
        | some c => some c.cpuScaler
        | none => none⟩)]
    | none => w1
  let wc ← loopWriteSeq D configDefault app cc defaultCC app.containers
  let wj ← loopWriteSeq D configDefault app cc defaultCC app.jobs
  pure (w2 ++ wc ++ wj)

/-- Decidable equality of collaborator results, so that witnesses can
be checked by evaluation. -/
instance [DecidableEq e1] [DecidableEq α] : DecidableEq (Except e1 α) := fun x y =>
  match x, y with
  | .ok a, .ok b =>
    match decEq a b with
    | isTrue h => isTrue (by rw [h])
    | isFalse h => isFalse (fun hh => h (Except.ok.inj hh))
  | .error a, .error b =>
    match decEq a b with
    | isTrue h => isTrue (by rw [h])
    | isFalse h => isFalse (fun hh => h (Except.error.inj hh))
  | .ok _, .error _ => isFalse (fun hh => Except.noConfusion hh)
  | .error _, .ok _ => isFalse (fun hh => Except.noConfusion hh)

/-! ### Concrete sample inputs (used by witnesses) -/

/-- A sample compute class, as in the repository's YAML fixture. -/
def sampleCC : ComputeClass := ⟨"sample-compute-class", "1Gi", 1⟩

/-- Sample collaborator results: the default class resolves, its
definition exists, no workload-specific class, parsing yields 1Gi. -/
def sampleDeps : ResolverDeps :=
  ⟨.ok "sample-compute-class",
   fun _ => .ok (some sampleCC),
   fun _ _ => .ok none,
   fun _ => .ok 1073741824⟩

/-- A container owning one sidecar, as in the YAML fixture. -/
def sampleContainer : Container :=
  .mk none none [("sidecar-name", .mk none none [])]

/-- A sample AppInstance: one container with a sidecar, one job, the
compute-class override at key "" set. -/
def sampleApp : AppInstance :=
  ⟨fun _ => none,
   fun n => if n = "" then some "sample-compute-class" else none,
   [("container-name", sampleContainer)],
   [("job-name", .mk none none [])]⟩

/-- Sample collaborator results where the default compute class's
definition lookup misses with NotFound. -/
def sampleDepsNF : ResolverDeps :=
  ⟨.ok "sample-compute-class",
   fun _ => .error .notFound,
   fun _ _ => .ok none,
   fun _ => .ok 1073741824⟩

/-- A sample AppInstance carrying an operator memory override for the
workload "w1". -/
def sampleApp2 : AppInstance :=
  ⟨fun n => if n = "w1" then some 2048 else none, fun _ => none, [], []⟩

/-! ### Lemmas about the Go-map model -/

theorem mapKeys_nil : mapKeys ([] : List (String × α)) = [] := rfl

theorem mapKeys_cons (k1 : String) (v1 : α) (tl : List (String × α)) :
    mapKeys ((k1, v1) :: tl) = k1 :: mapKeys tl := rfl

theorem mapKeys_append (l1 l2 : List (String × α)) :
    mapKeys (l1 ++ l2) = mapKeys l1 ++ mapKeys l2 := by
  simp [mapKeys]

theorem getEntry_setEntry_self (k : String) (v : α) (m : List (String × α)) :
    getEntry k (setEntry k v m) = some v := by
  induction m with
  | nil => simp [setEntry, getEntry]
  | cons hd tl ih =>
    obtain ⟨k1, v1⟩ := hd
    by_cases h : k = k1
    · simp [setEntry, getEntry, h]
    · simp [setEntry, getEntry, h, ih]

theorem getEntry_setEntry_ne {k k1 : String} (h : k ≠ k1) (v : α) (m : List (String × α)) :
    getEntry k (setEntry k1 v m) = getEntry k m := by
  induction m with
  | nil => simp [setEntry, getEntry, h]
  | cons hd tl ih =>
    obtain ⟨k2, v2⟩ := hd
    by_cases h2 : k1 = k2
    · subst h2
      simp [setEntry, getEntry, h]
    · by_cases h3 : k = k2
      · simp [setEntry, getEntry, h2, h3]
      · simp [setEntry, getEntry, h2, h3, ih]

theorem getEntry_eq_none_of_not_mem {k : String} {m : List (String × α)}
    (h : k ∉ mapKeys m) : getEntry k m = none := by
  induction m with
  | nil => simp [getEntry]
  | cons hd tl ih =>
    obtain ⟨k1, v1⟩ := hd
    rw [mapKeys_cons] at h
    simp at h
    simp [getEntry, h.1, ih h.2]

theorem applyWrites_nil (m : List (String × α)) : applyWrites [] m = m := rfl

theorem applyWrites_cons (k : String) (v : α) (w m : List (String × α)) :
    applyWrites ((k, v) :: w) m = applyWrites w (setEntry k v m) := by
  simp [applyWrites]

theorem applyWrites_append (w1 w2 m : List (String × α)) :
    applyWrites (w1 ++ w2) m = applyWrites w2 (applyWrites w1 m) := by
  simp [applyWrites, List.foldl_append]

theorem getEntry_applyWrites (k : String) (w : List (String × α)) :
    ∀ m, getEntry k (applyWrites w m) = orElseO (lastVal w k) (getEntry k m) := by
  induction w with
  | nil => intro m; simp [applyWrites, lastVal, orElseO]
  | cons hd tl ih =>
    intro m
    obtain ⟨k1, v1⟩ := hd
    rw [applyWrites_cons, ih]
    cases hlast : lastVal tl k with
    | some v => simp [lastVal, orElseO, hlast]
    | none =>
      by_cases h : k = k1
      · subst h
        simp [lastVal, orElseO, hlast, getEntry_setEntry_self]
      · simp [lastVal, orElseO, hlast, h, getEntry_setEntry_ne h]

theorem mapKeys_setEntry (k : String) (v : α) (m : List (String × α)) :
    mapKeys (setEntry k v m) =
      if k ∈ mapKeys m then mapKeys m else mapKeys m ++ [k] := by
  induction m with
  | nil => simp [setEntry, mapKeys]
  | cons hd tl ih =>
    obtain ⟨k1, v1⟩ := hd
    by_cases h : k = k1
    · subst h
      simp [setEntry, mapKeys_cons]
    · have hset : setEntry k v ((k1, v1) :: tl) = (k1, v1) :: setEntry k v tl := by
        simp [setEntry, h]
      rw [hset, mapKeys_cons, ih, mapKeys_cons]
      by_cases h2 : k ∈ mapKeys tl
      · simp [h, h2]
      · simp [h, h2]

theorem mem_keys_setEntry_of_mem {x : String} {m : List (String × α)}
    (h : x ∈ mapKeys m) (k : String) (v : α) : x ∈ mapKeys (setEntry k v m) := by
  rw [mapKeys_setEntry]
  split
  · exact h
  · simp [h]

theorem mem_keys_setEntry_self (k : String) (v : α) (m : List (String × α)) :
    k ∈ mapKeys (setEntry k v m) := by
  rw [mapKeys_setEntry]
  split
  · assumption
  · simp

theorem keys_setEntry_of_mem {k : String} {m : List (String × α)}
    (h : k ∈ mapKeys m) (v : α) : mapKeys (setEntry k v m) = mapKeys m := by
  rw [mapKeys_setEntry]
  simp [h]

theorem nodup_keys_setEntry {m : List (String × α)}
    (h : (mapKeys m).Nodup) (k : String) (v : α) :
    (mapKeys (setEntry k v m)).Nodup := by
  rw [mapKeys_setEntry]
  split
  · exact h
  · next hk => simp [List.nodup_append, h, hk]

theorem mem_keys_applyWrites_of_mem {x : String} (w : List (String × α)) :
    ∀ m, x ∈ mapKeys m → x ∈ mapKeys (applyWrites w m) := by
  induction w with
  | nil => intro m h; simpa [applyWrites] using h
  | cons hd tl ih =>
    intro m h
    obtain ⟨k1, v1⟩ := hd
    rw [applyWrites_cons]
    exact ih _ (mem_keys_setEntry_of_mem h k1 v1)

theorem mem_keys_applyWrites_of_written {x : String} (w : List (String × α)) :
    ∀ m, x ∈ mapKeys w → x ∈ mapKeys (applyWrites w m) := by
  induction w with
  | nil => intro m h; simp [mapKeys] at h
  | cons hd tl ih =>
    intro m h
    obtain ⟨k1, v1⟩ := hd
    rw [applyWrites_cons]
    rw [mapKeys_cons] at h
    rcases List.mem_cons.mp h with h | h
    · subst h
      exact mem_keys_applyWrites_of_mem tl _ (mem_keys_setEntry_self x v1 m)
    · exact ih _ h

theorem keys_applyWrites_of_subset (w : List (String × α)) :
    ∀ m, (∀ x, x ∈ mapKeys w → x ∈ mapKeys m) →
      mapKeys (applyWrites w m) = mapKeys m := by
  induction w with
  | nil => intro m _; simp [applyWrites]
  | cons hd tl ih =>
    intro m hsub
    obtain ⟨k1, v1⟩ := hd
    rw [applyWrites_cons]
    have hk1 : k1 ∈ mapKeys m := hsub k1 (by rw [mapKeys_cons]; exact List.mem_cons_self _ _)
    rw [ih _ (fun x hx =>
      mem_keys_setEntry_of_mem (hsub x (by rw [mapKeys_cons]; exact List.mem_cons_of_mem _ hx)) k1 v1)]
    exact keys_setEntry_of_mem hk1 v1

theorem nodup_keys_applyWrites (w : List (String × α)) :
    ∀ m, (mapKeys m).Nodup → (mapKeys (applyWrites w m)).Nodup := by
  induction w with
  | nil => intro m h; simpa [applyWrites] using h
  | cons hd tl ih =>
    intro m h
    obtain ⟨k1, v1⟩ := hd
    rw [applyWrites_cons]
    exact ih _ (nodup_keys_setEntry h k1 v1)

theorem map_ext (m1 : List (String × α)) :
    ∀ m2, mapKeys m1 = mapKeys m2 → (mapKeys m1).Nodup →
      (∀ k, getEntry k m1 = getEntry k m2) → m1 = m2 := by
  induction m1 with
  | nil =>
    intro m2 hk _ _
    cases m2 with
    | nil => rfl
    | cons hd tl => simp [mapKeys] at hk
  | cons hd tl ih =>
    intro m2 hk hnd hget
    obtain ⟨k1, v1⟩ := hd
    cases m2 with
    | nil => simp [mapKeys] at hk
    | cons hd2 tl2 =>
      obtain ⟨k2, v2⟩ := hd2
      rw [mapKeys_cons, mapKeys_cons] at hk
      injection hk with hk12 hktl
      subst hk12
      rw [mapKeys_cons, List.nodup_cons] at hnd
      have hv : v1 = v2 := by
        have := hget k1
        simpa [getEntry] using this
      subst hv
      have htl : tl = tl2 := by
        apply ih tl2 hktl hnd.2
        intro k
        by_cases h : k = k1
        · subst h
          rw [getEntry_eq_none_of_not_mem hnd.1,
            getEntry_eq_none_of_not_mem (hktl ▸ hnd.1)]
        · have := hget k
          simpa [getEntry, h] using this
      rw [htl]

theorem lastVal_eq_none_of_not_mem {k : String} {w : List (String × α)}
    (h : k ∉ mapKeys w) : lastVal w k = none := by
  induction w with
  | nil => simp [lastVal]
  | cons hd tl ih =>
    obtain ⟨k1, v1⟩ := hd
    rw [mapKeys_cons] at h
    simp at h
    simp [lastVal, ih h.2, h.1]

theorem lastVal_eq_some_of_mem_nodup {k : String} {v : α} {w : List (String × α)}
    (hnd : (mapKeys w).Nodup) (hm : (k, v) ∈ w) : lastVal w k = some v := by
  induction w with
  | nil => simp at hm
  | cons hd tl ih =>
    obtain ⟨k1, v1⟩ := hd
    rw [mapKeys_cons, List.nodup_cons] at hnd
    rcases List.mem_cons.mp hm with h | h
    · injection h with h1 h2
      subst h1
      subst h2
      simp [lastVal, lastVal_eq_none_of_not_mem hnd.1]
    · simp [lastVal, ih hnd.2 h]

theorem applyWrites_self_absorb (w m : List (String × α))
    (hnd : (mapKeys m).Nodup) :
    applyWrites w (applyWrites w m) = applyWrites w m := by
  have hkeys : mapKeys (applyWrites w (applyWrites w m)) = mapKeys (applyWrites w m) :=
    keys_applyWrites_of_subset w _ (fun x hx => mem_keys_applyWrites_of_written w m hx)
  apply map_ext _ _ hkeys
  · rw [hkeys]
    exact nodup_keys_applyWrites w m hnd
  · intro k
    rw [getEntry_applyWrites, getEntry_applyWrites]
    cases h : lastVal w k with
    | some v => simp [orElseO, h]
    | none => simp [orElseO, h]

/-! ### The resolver as a sequence of map writes -/

theorem except_pure (x : α) : (pure x : Except ε α) = .ok x := rfl

theorem except_bind_ok (x : α) (f : α → Except ε β) :
    (Except.ok x : Except ε α) >>= f = f x := rfl

theorem except_bind_error (e : ε) (f : α → Except ε β) :
    (Except.error e : Except ε α) >>= f = .error e := rfl

theorem except_map_ok (f : α → β) (x : α) :
    Except.map f (Except.ok x : Except ε α) = .ok (f x) := rfl

theorem except_map_error (f : α → β) (e : ε) :
    Except.map f (Except.error e : Except ε α) = .error e := rfl

theorem except_fmap_ok (f : α → β) (x : α) :
    f <$> (Except.ok x : Except ε α) = .ok (f x) := rfl

theorem except_fmap_error (f : α → β) (e : ε) :
    f <$> (Except.error e : Except ε α) = .error e := rfl

theorem applyWrites_workloadWrites (name : String) (container : Container)
    (off : ContainerResolvedOffering) (m : OMap) :
    applyWrites (workloadWrites name container off) m =
      container.sidecars.foldl (fun m sc => setEntry sc.1 off m) (setEntry name off m) := by
  simp [workloadWrites, applyWrites, List.foldl_map]

theorem resolveComputeClass_eq_writes (D : ResolverDeps) (configDefault : Option Int)
    (app : AppInstance) (defaultCC : Option ComputeClass) (defaultCCN : String)
    (l : List (String × Container)) :
    ∀ m, resolveComputeClass D configDefault app defaultCC defaultCCN l m =
      (loopWriteSeq D configDefault app defaultCC defaultCCN l).map
        (fun w => applyWrites w m) := by
  induction l with
  | nil =>
    intro m
    simp [resolveComputeClass, loopWriteSeq, applyWrites, except_map_ok]
  | cons hd tl ih =>
    intro m
    obtain ⟨name, container⟩ := hd
    simp only [resolveComputeClass, loopWriteSeq]
    cases hrw : resolveWorkload D configDefault app defaultCC defaultCCN name container with
    | error e => simp [hrw, except_bind_error, except_map_error]
    | ok off =>
      simp only [hrw, except_bind_ok]
      rw [ih]
      cases hws : loopWriteSeq D configDefault app defaultCC defaultCCN tl with
      | error e => simp [hws, except_bind_error, except_map_error]
      | ok w =>
        simp [hws, except_bind_ok, except_map_ok, applyWrites_append,
          applyWrites_workloadWrites]

theorem resolveComputeClasses_eq_writes (D : ResolverDeps) (configDefault : Option Int)
    (app : AppInstance) (inc : Option OMap) :
    resolveComputeClasses D configDefault app inc =
      (resolveWriteSeq D configDefault app).map (fun w => applyWrites w (inc.getD [])) := by
  have hbase : (match inc with | none => ([] : OMap) | some m0 => m0) = inc.getD [] := by
    cases inc <;> rfl
  simp only [resolveComputeClasses, resolveWriteSeq, hbase]
  cases hd : defaultCCName D app with
  | error e => simp [except_bind_error, except_map_error]
  | ok dcc =>
    simp only [except_bind_ok]
    cases hcc : D.getComputeClass dcc with
    | error ce =>
      cases ce with
      | notFound =>
        simp only [except_pure, except_bind_ok]
        cases hwc : loopWriteSeq D configDefault app none dcc app.containers with
        | error e =>
          simp [resolveComputeClass_eq_writes, hwc, except_bind_error, except_bind_ok,
            except_map_error, except_fmap_error]
        | ok wc =>
          cases hwj : loopWriteSeq D configDefault app none dcc app.jobs with
          | error e =>
            simp [resolveComputeClass_eq_writes, hwc, hwj, except_bind_error,
              except_bind_ok, except_map_error, except_map_ok, except_fmap_error]
          | ok wj =>
            cases hm : app.specMemory "" with
            | none =>
              simp [resolveComputeClass_eq_writes, hwc, hwj, hm, except_bind_ok,
                except_map_ok, except_fmap_ok, applyWrites_append, applyWrites]
            | some v =>
              simp [resolveComputeClass_eq_writes, hwc, hwj, hm, except_bind_ok,
                except_map_ok, except_fmap_ok, applyWrites_append, applyWrites,
                offAt, getEntry_setEntry_self]
      | other e => simp [except_bind_error, except_map_error]
    | ok copt =>
      cases copt with
      | none =>
        simp only [except_pure, except_bind_ok]
        cases hwc : loopWriteSeq D configDefault app none dcc app.containers with
        | error e =>
          simp [resolveComputeClass_eq_writes, hwc, except_bind_error, except_bind_ok,
            except_map_error, except_fmap_error]
        | ok wc =>
          cases hwj : loopWriteSeq D configDefault app none dcc app.jobs with
          | error e =>
            simp [resolveComputeClass_eq_writes, hwc, hwj, except_bind_error,
              except_bind_ok, except_map_error, except_map_ok, except_fmap_error]
          | ok wj =>
            cases hm : app.specMemory "" with
            | none =>
              simp [resolveComputeClass_eq_writes, hwc, hwj, hm, except_bind_ok,
                except_map_ok, except_fmap_ok, applyWrites_append, applyWrites]
            | some v =>
              simp [resolveComputeClass_eq_writes, hwc, hwj, hm, except_bind_ok,
                except_map_ok, except_fmap_ok, applyWrites_append, applyWrites,
                offAt, getEntry_setEntry_self]
      | some c =>
        simp only [except_pure, except_bind_ok]
        cases hp : D.parseComputeClassMemory c.memory with
        | error e => simp [hp, except_bind_error, except_map_error]
        | ok d =>
          simp only [hp, except_pure, except_bind_ok]
          cases hwc : loopWriteSeq D configDefault app (some c) dcc app.containers with
          | error e =>
            simp [resolveComputeClass_eq_writes, hwc, except_bind_error, except_bind_ok,
              except_map_error, except_fmap_error, offAt, getEntry_setEntry_self]
          | ok wc =>
            cases hwj : loopWriteSeq D configDefault app (some c) dcc app.jobs with
            | error e =>
              simp [resolveComputeClass_eq_writes, hwc, hwj, except_bind_error,
                except_bind_ok, except_map_error, except_map_ok, except_fmap_error,
                offAt, getEntry_setEntry_self]
            | ok wj =>
              cases hm : app.specMemory "" with
              | none =>
                simp [resolveComputeClass_eq_writes, hwc, hwj, hm, except_bind_ok,
                  except_map_ok, except_fmap_ok, applyWrites_append, applyWrites,
                  offAt, getEntry_setEntry_self]
              | some v =>
                simp [resolveComputeClass_eq_writes, hwc, hwj, hm, except_bind_ok,
                  except_map_ok, except_fmap_ok, applyWrites_append, applyWrites,
                  offAt, getEntry_setEntry_self]


theorem loopWriteSeq_keys (D : ResolverDeps) (configDefault : Option Int)
    (app : AppInstance) (defaultCC : Option ComputeClass) (defaultCCN : String) :
    ∀ l w, loopWriteSeq D configDefault app defaultCC defaultCCN l = .ok w →
      mapKeys w = loopWriteKeys l := by
  intro l
  induction l with
  | nil =>
    intro w hw
    simp [loopWriteSeq] at hw
    subst hw
    simp [mapKeys, loopWriteKeys]
  | cons hd tl ih =>
    intro w hw
    obtain ⟨name, container⟩ := hd
    simp only [loopWriteSeq] at hw
    cases hrw : resolveWorkload D configDefault app defaultCC defaultCCN name container with
    | error e => simp [hrw, except_bind_error] at hw
    | ok off =>
      rw [hrw] at hw
      simp only [except_bind_ok] at hw
      cases hws : loopWriteSeq D configDefault app defaultCC defaultCCN tl with
      | error e => simp [hws, except_bind_error] at hw
      | ok w2 =>
        rw [hws] at hw
        simp only [except_bind_ok] at hw
        injection hw with hw
        subst hw
        rw [mapKeys_append, ih w2 hws]
        simp [workloadWrites, mapKeys, loopWriteKeys, List.map_map]

theorem loopWriteSeq_mem (D : ResolverDeps) (configDefault : Option Int)
    (app : AppInstance) (defaultCC : Option ComputeClass) (defaultCCN : String)
    (n : String) (c : Container) :
    ∀ l w, loopWriteSeq D configDefault app defaultCC defaultCCN l = .ok w →
      (n, c) ∈ l →
      ∃ off, resolveWorkload D configDefault app defaultCC defaultCCN n c = .ok off ∧
        (n, off) ∈ w ∧ ∀ sn sc, (sn, sc) ∈ c.sidecars → (sn, off) ∈ w := by
  intro l
  induction l with
  | nil => intro w _ hmem; simp at hmem
  | cons hd tl ih =>
    intro w hw hmem
    obtain ⟨name, container⟩ := hd
    simp only [loopWriteSeq] at hw
    cases hrw : resolveWorkload D configDefault app defaultCC defaultCCN name container with
    | error e => simp [hrw, except_bind_error] at hw
    | ok off =>
      rw [hrw] at hw
      simp only [except_bind_ok] at hw
      cases hws : loopWriteSeq D configDefault app defaultCC defaultCCN tl with
      | error e => simp [hws, except_bind_error] at hw
      | ok w2 =>
        rw [hws] at hw
        simp only [except_bind_ok] at hw
        injection hw with hw
        subst hw
        rcases List.mem_cons.mp hmem with h | h
        · injection h with h1 h2
          subst h1
          subst h2
          refine ⟨off, hrw, ?_, ?_⟩
          · exact List.mem_append_left _ (List.mem_cons_self _ _)
          · intro sn sc hsc
            apply List.mem_append_left
            apply List.mem_cons_of_mem
            exact List.mem_map.mpr ⟨(sn, sc), hsc, rfl⟩
        · obtain ⟨off2, hrw2, hm1, hm2⟩ := ih w2 hws h
          exact ⟨off2, hrw2, List.mem_append_right _ hm1,
            fun sn sc hsc => List.mem_append_right _ (hm2 sn sc hsc)⟩

/-- Claim C9: the Offering Resolver is idempotent — feeding the
resolved-offerings map produced by one run back in as the incoming
status (all other inputs unchanged) reproduces exactly the same map. -/
theorem c9_resolver_idempotent (D : ResolverDeps) (configDefault : Option Int)
    (app : AppInstance) (inc : Option OMap)
    (hnd : (mapKeys (inc.getD [])).Nodup) :
    (resolveComputeClasses D configDefault app inc >>= fun m =>
      resolveComputeClasses D configDefault app (some m)) =
      resolveComputeClasses D configDefault app inc := by
  rw [resolveComputeClasses_eq_writes D configDefault app inc]
  cases hw : resolveWriteSeq D configDefault app with
  | error e => simp [except_map_error, except_bind_error]
  | ok w =>
    simp only [except_map_ok, except_bind_ok]
    rw [resolveComputeClasses_eq_writes D configDefault app (some (applyWrites w (inc.getD []))),
      hw, except_map_ok]
    simp [applyWrites_self_absorb w _ hnd]

/-- Witness for C9 at a concrete deployment (empty incoming status). -/
theorem c9_resolver_idempotent_witness :
    (mapKeys (((none : Option OMap)).getD [])).Nodup ∧
    (resolveComputeClasses sampleDeps (some 256) sampleApp none >>= fun m =>
      resolveComputeClasses sampleDeps (some 256) sampleApp (some m)) =
      resolveComputeClasses sampleDeps (some 256) sampleApp none :=
  ⟨by decide, c9_resolver_idempotent sampleDeps (some 256) sampleApp none (by decide)⟩


/-- Claim C5: every sidecar is assigned the very offering resolved for
its parent container, whatever the sidecar's own fields are; stated for
`resolveComputeClass`, which processes both the container and the job
lists, under distinctness of the written workload keys. -/
theorem c5_sidecar_inheritance (D : ResolverDeps) (configDefault : Option Int)
    (app : AppInstance) (defaultCC : Option ComputeClass) (defaultCCN : String)
    (l : List (String × Container)) (m m1 : OMap) (n sn : String) (c sc : Container)
    (hres : resolveComputeClass D configDefault app defaultCC defaultCCN l m = .ok m1)
    (hmem : (n, c) ∈ l) (hsc : (sn, sc) ∈ c.sidecars)
    (hnd : (loopWriteKeys l).Nodup) :
    ∃ off, getEntry n m1 = some off ∧ getEntry sn m1 = some off := by
  rw [resolveComputeClass_eq_writes] at hres
  cases hw : loopWriteSeq D configDefault app defaultCC defaultCCN l with
  | error e =>
    rw [hw, except_map_error] at hres
    exact absurd hres (by simp)
  | ok w =>
    rw [hw, except_map_ok] at hres
    injection hres with hres
    subst hres
    obtain ⟨off, _, hm1, hm2⟩ :=
      loopWriteSeq_mem D configDefault app defaultCC defaultCCN n c l w hw hmem
    have hndw : (mapKeys w).Nodup := by
      rw [loopWriteSeq_keys D configDefault app defaultCC defaultCCN l w hw]
      exact hnd
    refine ⟨off, ?_, ?_⟩
    · rw [getEntry_applyWrites, lastVal_eq_some_of_mem_nodup hndw hm1]
      simp [orElseO]
    · rw [getEntry_applyWrites, lastVal_eq_some_of_mem_nodup hndw (hm2 sn sc hsc)]
      simp [orElseO]

/-- Witness for C5: the fixture's container-name/sidecar-name workload. -/
theorem c5_sidecar_inheritance_witness :
    (resolveComputeClass sampleDeps (some 256) sampleApp none "sample-compute-class"
        [("container-name", sampleContainer)] [] =
      .ok [("container-name", ⟨"sample-compute-class", some 256, none⟩),
           ("sidecar-name", ⟨"sample-compute-class", some 256, none⟩)]) ∧
    ∃ off,
      getEntry "container-name"
        [("container-name", (⟨"sample-compute-class", some 256, none⟩ : ContainerResolvedOffering)),
         ("sidecar-name", ⟨"sample-compute-class", some 256, none⟩)] = some off ∧
      getEntry "sidecar-name"
        [("container-name", (⟨"sample-compute-class", some 256, none⟩ : ContainerResolvedOffering)),
         ("sidecar-name", ⟨"sample-compute-class", some 256, none⟩)] = some off :=
  ⟨by decide,
   c5_sidecar_inheritance sampleDeps (some 256) sampleApp none "sample-compute-class"
     [("container-name", sampleContainer)] []
     [("container-name", ⟨"sample-compute-class", some 256, none⟩),
      ("sidecar-name", ⟨"sample-compute-class", some 256, none⟩)]
     "container-name" "sidecar-name" sampleContainer (.mk none none [])
     (by decide) (List.mem_singleton.mpr rfl) (List.mem_singleton.mpr rfl) (by decide)⟩

/-- Claim C1: per-workload resolved memory follows the strict priority
chain (workload override, all-workloads override, image default,
selected class default, global default), first match winning; stated on
`resolveWorkload`, the loop body applied to every container and job. -/
theorem c1_memory_priority (D : ResolverDeps) (configDefault : Option Int)
    (app : AppInstance) (defaultCC : Option ComputeClass) (defaultCCN : String)
    (name : String) (container : Container) (ccw : Option ComputeClass)
    (off : ContainerResolvedOffering)
    (hccw : D.getClassForWorkload name container = .ok ccw)
    (h : resolveWorkload D configDefault app defaultCC defaultCCN name container = .ok off) :
    off.memory = orElseO (app.specMemory name)
      (orElseO (app.specMemory "")
        (orElseO container.memory
          (match (match ccw with | some c => some c | none => defaultCC) with
           | some c => (D.parseComputeClassMemory c.memory).toOption
           | none => configDefault))) := by
  simp only [resolveWorkload, hccw, except_bind_ok] at h
  cases h1 : app.specMemory name with
  | some v =>
    simp only [h1, Option.isSome_some, if_true, except_pure, except_bind_ok] at h
    injection h with h
    rw [← h]
    simp [orElseO]
  | none =>
    simp only [h1, Option.isSome_none, Bool.false_eq_true, if_false] at h
    cases h2 : app.specMemory "" with
    | some v =>
      simp only [h2, Option.isSome_some, if_true, except_pure, except_bind_ok] at h
      injection h with h
      rw [← h]
      simp [orElseO, h2]
    | none =>
      simp only [h2, Option.isSome_none, Bool.false_eq_true, if_false] at h
      cases h3 : container.memory with
      | some v =>
        simp only [h3, Option.isSome_some, if_true, except_pure, except_bind_ok] at h
        injection h with h
        rw [← h]
        simp [orElseO, h3]
      | none =>
        simp only [h3, Option.isSome_none, Bool.false_eq_true, if_false] at h
        cases ccw with
        | some c =>
          cases hp : D.parseComputeClassMemory c.memory with
          | error e =>
            simp [hp, except_bind_error] at h
          | ok d =>
            simp [hp, except_pure, except_bind_ok] at h
            subst h
            simp [orElseO, hp, Except.toOption]
        | none =>
          cases defaultCC with
          | some c =>
            cases hp : D.parseComputeClassMemory c.memory with
            | error e =>
              simp [hp, except_bind_error] at h
            | ok d =>
              simp [hp, except_pure, except_bind_ok] at h
              subst h
              simp [orElseO, hp, Except.toOption]
          | none =>
            simp [except_pure, except_bind_ok] at h
            subst h
            simp [orElseO]

/-- Witness for C1: a per-workload override beats the image default and
the global default. -/
theorem c1_memory_priority_witness :
    (resolveWorkload sampleDeps (some 256) sampleApp2 none "sample-compute-class" "w1"
        (Container.mk (some 64) none []) =
      .ok ⟨"sample-compute-class", some 2048, none⟩) ∧
    (⟨"sample-compute-class", some 2048, none⟩ : ContainerResolvedOffering).memory =
      orElseO (sampleApp2.specMemory "w1")
        (orElseO (sampleApp2.specMemory "")
          (orElseO (Container.mk (some 64) none []).memory (some 256))) :=
  ⟨by decide,
   c1_memory_priority sampleDeps (some 256) sampleApp2 none "sample-compute-class" "w1"
     (Container.mk (some 64) none []) none ⟨"sample-compute-class", some 2048, none⟩
     (by decide) (by decide)⟩

theorem resolveWorkload_congr (D D2 : ResolverDeps)
    (h1 : D.getClassForWorkload = D2.getClassForWorkload)
    (h2 : D.parseComputeClassMemory = D2.parseComputeClassMemory)
    (configDefault : Option Int) (app : AppInstance) (defaultCC : Option ComputeClass)
    (defaultCCN : String) (name : String) (container : Container) :
    resolveWorkload D configDefault app defaultCC defaultCCN name container =
      resolveWorkload D2 configDefault app defaultCC defaultCCN name container := by
  simp only [resolveWorkload, h1, h2]

theorem resolveComputeClass_congr (D D2 : ResolverDeps)
    (h1 : D.getClassForWorkload = D2.getClassForWorkload)
    (h2 : D.parseComputeClassMemory = D2.parseComputeClassMemory)
    (configDefault : Option Int) (app : AppInstance) (defaultCC : Option ComputeClass)
    (defaultCCN : String) :
    ∀ l m, resolveComputeClass D configDefault app defaultCC defaultCCN l m =
      resolveComputeClass D2 configDefault app defaultCC defaultCCN l m := by
  intro l
  induction l with
  | nil => intro m; rfl
  | cons hd tl ih =>
    intro m
    obtain ⟨name, container⟩ := hd
    simp only [resolveComputeClass,
      resolveWorkload_congr D D2 h1 h2 configDefault app defaultCC defaultCCN name container]
    cases hrw : resolveWorkload D2 configDefault app defaultCC defaultCCN name container with
    | error e => simp [except_bind_error]
    | ok off => simp [except_bind_ok, ih]

/-- Claim C6: a NotFound miss of the default compute class's definition
collapses into "no compute class" (the run is identical to one whose
lookup returns absence), while any other lookup failure is propagated
as the resolution's error. The default-class-name lookup itself is
modelled from the spec as absorbing NotFound internally. -/
theorem c6_notfound_collapses (D : ResolverDeps) (configDefault : Option Int)
    (app : AppInstance) (inc : Option OMap) (dcc : String) (e : String)
    (hdef : defaultCCName D app = .ok dcc) :
    (D.getComputeClass dcc = .error .notFound →
      resolveComputeClasses D configDefault app inc =
        resolveComputeClasses
          { D with getComputeClass := fun n2 =>
              if n2 = dcc then .ok none else D.getComputeClass n2 }
          configDefault app inc) ∧
    (D.getComputeClass dcc = .error (.other e) →
      resolveComputeClasses D configDefault app inc = Except.error e) := by
  constructor
  · intro hnf
    have hdef2 : defaultCCName
        { D with getComputeClass := fun n2 =>
            if n2 = dcc then .ok none else D.getComputeClass n2 } app = .ok dcc := hdef
    have hcongr := resolveComputeClass_congr D
      { D with getComputeClass := fun n2 =>
          if n2 = dcc then .ok none else D.getComputeClass n2 } rfl rfl
    simp only [resolveComputeClasses, hdef, hdef2, except_bind_ok]
    rw [hnf]
    simp [hcongr, except_pure, except_bind_ok]
  · intro ho
    simp only [resolveComputeClasses, hdef, except_bind_ok, ho, except_bind_error]

/-- Witness for C6: the sample deployment whose class definition lookup
misses with NotFound resolves exactly as if the class were absent. -/
theorem c6_notfound_collapses_witness :
    (defaultCCName sampleDepsNF sampleApp = .ok "sample-compute-class") ∧
    (sampleDepsNF.getComputeClass "sample-compute-class" = .error .notFound) ∧
    resolveComputeClasses sampleDepsNF (some 256) sampleApp none =
      resolveComputeClasses
        { sampleDepsNF with getComputeClass := fun n2 =>
            if n2 = "sample-compute-class" then .ok none
            else sampleDepsNF.getComputeClass n2 }
        (some 256) sampleApp none :=
  ⟨by decide, by decide,
   (c6_notfound_collapses sampleDepsNF (some 256) sampleApp none "sample-compute-class" ""
     (by decide)).1 (by decide)⟩


/-! ### Quota allocation read path (WaitForAllocation) -/

/-- Counterexample to claim C2 as stated: a QuotaRequest whose spec
resources differ from its allocated resources but whose authority
condition reports an error is set to error, not to unknown — the error
check runs before the equality check. -/
theorem c2_counterexample :
    ((⟨⟨1, 0, 0, 0, 0, 0, 0, 0⟩, zeroResources, ⟨false, true, "boom"⟩⟩ :
        QuotaRequestInstance).specResources ≠
      (⟨⟨1, 0, 0, 0, 0, 0, 0, 0⟩, zeroResources, ⟨false, true, "boom"⟩⟩ :
        QuotaRequestInstance).allocatedResources) ∧
    (waitForAllocation (.ok true)
        (.ok ⟨⟨1, 0, 0, 0, 0, 0, 0, 0⟩, zeroResources, ⟨false, true, "boom"⟩⟩)).update =
      some (.error "quota allocation failed: boom") := by decide

/-- Claim C2 (amended): under quota enforcement, the condition is set
to success iff the QuotaRequest exists, spec resources structurally
equal allocated resources, and the authority's condition reports
success and no error; an absent request (NotFound) yields unknown; and
unequal resources yield unknown provided the authority reports no error
(the authority's error branch is checked first). -/
theorem c2_read_path_condition (get : Except GetErr QuotaRequestInstance) :
    ((waitForAllocation (.ok true) get).update = some .success ↔
      ∃ qr, get = .ok qr ∧ qr.specResources = qr.allocatedResources ∧
        qr.condition.success = true ∧ qr.condition.error = false) ∧
    (get = .error .notFound →
      (waitForAllocation (.ok true) get).update =
        some (.unknown "waiting for quota allocation")) ∧
    (∀ qr, get = .ok qr → qr.specResources ≠ qr.allocatedResources →
      qr.condition.error = false →
      (waitForAllocation (.ok true) get).update =
        some (.unknown "waiting for quota allocation")) := by
  cases get with
  | error ge =>
    cases ge with
    | notFound =>
      refine ⟨?_, fun _ => by decide, fun qr hqr _ _ => by simp at hqr⟩
      rw [show (waitForAllocation (.ok true) (.error .notFound)).update =
        some (.unknown "waiting for quota allocation") from by decide]
      simp
    | other e =>
      refine ⟨?_, fun hh => by simp at hh, fun qr hqr _ _ => by simp at hqr⟩
      rw [show (waitForAllocation (.ok true) (.error (.other e))).update = none from rfl]
      simp
  | ok qr =>
    by_cases he : qr.condition.error
    · refine ⟨?_, fun hh => by simp at hh, fun qr2 hqr _ hne => ?_⟩
      · simp [waitForAllocation, he]
      · injection hqr with hqr
        subst hqr
        rw [he] at hne
        simp at hne
    · by_cases heq : qr.specResources = qr.allocatedResources
      · by_cases hs : qr.condition.success
        · refine ⟨?_, fun hh => by simp at hh, fun qr2 hqr hne _ => ?_⟩
          · simp [waitForAllocation, he, heq, hs, resourcesEqual]
          · injection hqr with hqr
            subst hqr
            exact absurd heq hne
        · refine ⟨?_, fun hh => by simp at hh, fun qr2 hqr hne _ => ?_⟩
          · simp [waitForAllocation, he, heq, hs, resourcesEqual]
          · injection hqr with hqr
            subst hqr
            exact absurd heq hne
      · refine ⟨?_, fun hh => by simp at hh, fun qr2 hqr hne hne2 => ?_⟩
        · simp [waitForAllocation, he, heq, resourcesEqual]
        · injection hqr with hqr
          subst hqr
          simp [waitForAllocation, he, heq, resourcesEqual]

/-- Witness for C2 (amended) at an absent QuotaRequest. -/
theorem c2_read_path_condition_witness :
    (waitForAllocation (.ok true)
        (.error .notFound : Except GetErr QuotaRequestInstance)).update =
      some (.unknown "waiting for quota allocation") :=
  (c2_read_path_condition (.error .notFound)).2.1 rfl

/-- Counterexample to claim C4 as stated: the condition message carried
is the authority's message behind a fixed wrapper, not the authority's
message itself. -/
theorem c4_counterexample :
    (waitForAllocation (.ok true)
        (.ok ⟨zeroResources, zeroResources, ⟨false, true, "boom"⟩⟩)).update =
      some (.error "quota allocation failed: boom") ∧
    "quota allocation failed: boom" ≠ "boom" := by decide

/-- Claim C4 (amended): when the authority's condition reports an
error, the deployment's quota condition is set to error carrying the
authority's message embedded verbatim behind the fixed wrapper
"quota allocation failed: ", and no error is returned to the
reconciliation framework — so this component triggers no retry. -/
theorem c4_error_surfaced (qr : QuotaRequestInstance)
    (h : qr.condition.error = true) :
    (waitForAllocation (.ok true) (.ok qr)).update =
      some (.error ("quota allocation failed: " ++ qr.condition.message)) ∧
    (waitForAllocation (.ok true) (.ok qr)).ret = none := by
  simp [waitForAllocation, h]

/-- Witness for C4 (amended). -/
theorem c4_error_surfaced_witness :
    (waitForAllocation (.ok true)
        (.ok ⟨zeroResources, zeroResources, ⟨false, true, "boom"⟩⟩)).update =
      some (.error ("quota allocation failed: " ++ "boom")) ∧
    (waitForAllocation (.ok true)
        (.ok ⟨zeroResources, zeroResources, ⟨false, true, "boom"⟩⟩)).ret = none :=
  c4_error_surfaced ⟨zeroResources, zeroResources, ⟨false, true, "boom"⟩⟩ (by decide)

/-- Claim C7: when quota is not enforced, the read path reports success
without reading the QuotaRequest, and the write path emits no
QuotaRequest object at all. -/
theorem c7_disabled_short_circuit (get : Except GetErr QuotaRequestInstance)
    (app : QuotaAppInstance) (sched : String → Option Requirements)
    (parse : String → Option Int) :
    waitForAllocation (.ok false) get = ⟨some .success, none, false⟩ ∧
    ensureQuotaRequest (.ok false) app sched parse = ⟨none, none, none⟩ :=
  ⟨rfl, rfl⟩

/-- Claim C10: when the QuotaRequest exists with equal spec and
allocated resources but the authority's condition reports neither error
nor success, no branch fires: the condition is left untouched on that
tick and no error is returned. -/
theorem c10_no_condition_written (qr : QuotaRequestInstance)
    (h1 : qr.condition.error = false) (h2 : qr.condition.success = false)
    (h3 : qr.specResources = qr.allocatedResources) :
    waitForAllocation (.ok true) (.ok qr) = ⟨none, none, true⟩ := by
  simp [waitForAllocation, h1, h2, h3, resourcesEqual]

/-- Witness for C10 at the zero-valued QuotaRequest. -/
theorem c10_no_condition_written_witness :
    waitForAllocation (.ok true) (.ok zeroQuotaRequest) = ⟨none, none, true⟩ :=
  c10_no_condition_written zeroQuotaRequest (by decide) (by decide) (by decide)


/-! ### Quota aggregation (EnsureQuotaRequest) -/

theorem foldl_addRequirements (rc rm : Int) (n : Nat) :
    ∀ q : QuotaRequestResources,
      (List.range n).foldl
        (fun q _ => { q with cpu := q.cpu + rc, memory := q.memory + rm }) q =
      { q with cpu := q.cpu + (n : Int) * rc, memory := q.memory + (n : Int) * rm } := by
  induction n with
  | zero => intro q; simp
  | succ n ih =>
    intro q
    rw [List.range_succ, List.foldl_append, ih]
    simp only [List.foldl_cons, List.foldl_nil, QuotaRequestResources.mk.injEq,
      true_and, and_true]
    constructor <;> (push_cast; ring)

theorem addCompute_eq (sched : String → Option Requirements) :
    ∀ (l : List (String × Container)) (q : QuotaRequestResources),
      addCompute sched l q = { q with
        cpu := q.cpu + (computeSums sched l).1,
        memory := q.memory + (computeSums sched l).2 } := by
  intro l q
  induction l, q using addCompute.induct sched with
  | case1 q => simp [addCompute, computeSums]
  | case2 name memory scale sidecars rest q reqs Q1 Q2 ihs1 ihs2 ihrest =>
    clear ihs2
    unfold Q2 at ihrest
    unfold Q1 at ihs1 ihrest
    unfold reqs at ihs1 ihrest
    simp only [addCompute]
    rw [ihs1] at ihrest
    rw [ihs1, ihrest]
    simp [foldl_addRequirements, computeSums, schedLookup, QuotaRequestResources.mk.injEq]
    constructor <;> ring


theorem addContainers_frame :
    ∀ (l : List (String × Container)) (q : QuotaRequestResources),
      (addContainers l q).cpu = q.cpu ∧ (addContainers l q).memory = q.memory := by
  intro l
  induction l with
  | nil => intro q; simp [addContainers]
  | cons hd tl ih =>
    intro q
    obtain ⟨name, container⟩ := hd
    simp [addContainers, ih]

theorem addVolumeStorage_frame (parse : String → Option Int)
    (bindings : List VolumeBinding) :
    ∀ (vols : List (String × String)) (q q2 : QuotaRequestResources),
      addVolumeStorage parse bindings vols q = .ok q2 →
      q2.cpu = q.cpu ∧ q2.memory = q.memory := by
  intro vols
  induction vols with
  | nil =>
    intro q q2 h
    simp [addVolumeStorage] at h
    subst h
    exact ⟨rfl, rfl⟩
  | cons hd tl ih =>
    intro q q2 h
    obtain ⟨name, declaredSize⟩ := hd
    simp only [addVolumeStorage] at h
    split at h
    · exact ih _ q2 h
    · split at h
      · simp at h
      · have hh := ih _ q2 h
        exact hh

theorem addSecrets_frame (bindings : List SecretBinding) :
    ∀ (secrets : List String) (q : QuotaRequestResources),
      (addSecrets bindings secrets q).cpu = q.cpu ∧
      (addSecrets bindings secrets q).memory = q.memory := by
  intro secrets
  induction secrets with
  | nil => intro q; simp [addSecrets]
  | cons hd tl ih =>
    intro q
    simp only [addSecrets]
    split
    · exact ih q
    · exact ih _

theorem addStorage_frame (parse : String → Option Int) (app : QuotaAppInstance) :
    ∀ (q q2 : QuotaRequestResources), addStorage parse app q = .ok q2 →
      q2.cpu = q.cpu ∧ q2.memory = q.memory := by
  intro q q2 h
  simp only [addStorage] at h
  cases hv : addVolumeStorage parse app.specVolumes app.volumes q with
  | error e =>
    rw [hv] at h
    simp [except_bind_error] at h
  | ok qv =>
    rw [hv] at h
    simp only [except_bind_ok] at h
    injection h with h
    rw [← h]
    have h2 := addVolumeStorage_frame parse app.specVolumes app.volumes q qv hv
    have h3 := addSecrets_frame app.specSecrets app.secrets qv
    exact ⟨h3.1.trans h2.1, h3.2.trans h2.2⟩

/-- Counterexample to claim C3 as stated: a container scaled to 2 with
one unscaled sidecar, every workload requesting cpu 1 and memory 1. The
code adds the sidecar's requirements once (the sidecar's own nil scale,
so 2 + 1 = 3), while the claim's "once per parent replica" predicts
2 + 2 = 4. -/
theorem c3_counterexample :
    (addCompute (fun _ => some ⟨1, 1⟩)
        [("c", .mk none (some 2) [("s", .mk none none [])])] zeroResources).cpu = 3 ∧
    (claimedComputeSums (fun _ => some ⟨1, 1⟩)
        [("c", .mk none (some 2) [("s", .mk none none [])])]).1 = 4 := by
  constructor
  · simp [addCompute, zeroResources, replicas, schedLookup, List.range_succ]
  · decide

/-- Claim C3 (amended): the cpu/memory sums add, for every top-level
container, its looked-up requirements (own name falling back to "")
once per replica of its own scale, and each sidecar contributes its own
looked-up requirements once per replica of the sidecar's OWN scale
(nil = 1), independent of the parent's replica count; the emitted
request's cpu/memory come from the containers alone — jobs contribute
nothing. -/
theorem c3_compute_sums (sched : String → Option Requirements) :
    (∀ (l : List (String × Container)) (q : QuotaRequestResources),
      addCompute sched l q = { q with
        cpu := q.cpu + (computeSums sched l).1,
        memory := q.memory + (computeSums sched l).2 }) ∧
    (∀ (app : QuotaAppInstance) (parse : String → Option Int)
        (q1 : QuotaRequestResources) (u : Option ConditionUpdate) (r : Option String),
      ensureQuotaRequest (.ok true) app sched parse = ⟨some q1, u, r⟩ →
      q1.cpu = (computeSums sched app.containers).1 ∧
      q1.memory = (computeSums sched app.containers).2) := by
  constructor
  · exact addCompute_eq sched
  · intro app parse q1 u r h
    simp only [ensureQuotaRequest] at h
    split at h
    · simp at h
    · next q3 hstore =>
      simp only [EnsureOutcome.mk.injEq, Option.some.injEq] at h
      obtain ⟨h1, -, -⟩ := h
      subst h1
      have hframe := addStorage_frame parse app _ q3 hstore
      rw [hframe.1, hframe.2, addCompute_eq sched,
        (addContainers_frame app.containers _).1, (addContainers_frame app.containers _).2]
      simp [zeroResources]


/-- Witness for C3 (amended): one container scaled to 2 with one
sidecar, one job; the emitted request counts cpu/memory from the
containers alone. -/
theorem c3_compute_sums_witness :
    ensureQuotaRequest (.ok true)
        ⟨[("c", .mk none (some 2) [("s", .mk none none [])])],
         [("j", .mk none none [])], [], [], [], [], []⟩
        (fun _ => some ⟨1, 1⟩) (fun _ => none) =
      ⟨some ⟨2, 1, 0, 0, 0, 3, 3, 0⟩, none, none⟩ ∧
    ((⟨2, 1, 0, 0, 0, 3, 3, 0⟩ : QuotaRequestResources).cpu =
        (computeSums (fun _ => some ⟨1, 1⟩)
          [("c", Container.mk none (some 2) [("s", Container.mk none none [])])]).1 ∧
      (⟨2, 1, 0, 0, 0, 3, 3, 0⟩ : QuotaRequestResources).memory =
        (computeSums (fun _ => some ⟨1, 1⟩)
          [("c", Container.mk none (some 2) [("s", Container.mk none none [])])]).2) := by
  have h : ensureQuotaRequest (.ok true)
      ⟨[("c", .mk none (some 2) [("s", .mk none none [])])],
       [("j", .mk none none [])], [], [], [], [], []⟩
      (fun _ => some ⟨1, 1⟩) (fun _ => none) =
      ⟨some ⟨2, 1, 0, 0, 0, 3, 3, 0⟩, none, none⟩ := by
    simp [ensureQuotaRequest, addContainers, addCompute, addStorage, addVolumeStorage,
      addSecrets, zeroResources, replicas, List.range_succ, Container.scale,
      Container.sidecars, schedLookup, except_bind_ok, except_pure]
  exact ⟨h, (c3_compute_sums (fun _ => some ⟨1, 1⟩)).2 _ _ _ _ _ h⟩

theorem boundVolumeSize_first (name : String) (b : VolumeBinding) :
    ∀ pre post, (∀ b2, b2 ∈ pre → ¬(b2.target = name ∧ b2.volume = "")) →
      b.target = name → b.volume = "" →
      boundVolumeSize name (pre ++ b :: post) = (true, b.size) := by
  intro pre
  induction pre with
  | nil =>
    intro post _ h1 h2
    simp [boundVolumeSize, h1, h2]
  | cons b2 pre2 ih =>
    intro post hpre h1 h2
    have hb2 := hpre b2 (List.mem_cons_self _ _)
    simp only [List.cons_append, boundVolumeSize]
    rw [if_neg hb2]
    exact ih post (fun b3 hb3 => hpre b3 (List.mem_cons_of_mem _ hb3)) h1 h2

theorem boundVolumeSize_none (name : String) :
    ∀ bindings, (∀ b, b ∈ bindings → ¬(b.target = name ∧ b.volume = "")) →
      boundVolumeSize name bindings = (false, "0") := by
  intro bindings
  induction bindings with
  | nil => intro _; simp [boundVolumeSize]
  | cons b2 rest ih =>
    intro hall
    have hb2 := hall b2 (List.mem_cons_self _ _)
    simp only [boundVolumeSize]
    rw [if_neg hb2]
    exact ih (fun b3 hb3 => hall b3 (List.mem_cons_of_mem _ hb3))

theorem addVolumeStorage_error_indep (parse : String → Option Int)
    (bindings : List VolumeBinding) :
    ∀ (vols : List (String × String)) (q q2 : QuotaRequestResources) (e : String),
      addVolumeStorage parse bindings vols q = .error e →
      addVolumeStorage parse bindings vols q2 = .error e := by
  intro vols
  induction vols with
  | nil =>
    intro q q2 e h
    simp [addVolumeStorage] at h
  | cons hd tl ih =>
    intro q q2 e h
    obtain ⟨name, declaredSize⟩ := hd
    simp only [addVolumeStorage] at h ⊢
    by_cases hc : (effectiveSize name declaredSize bindings = "" ∨
        effectiveSize name declaredSize bindings = "0")
    · rw [if_pos hc] at h ⊢
      exact ih _ q2 e h
    · rw [if_neg hc] at h ⊢
      cases hp : parse (effectiveSize name declaredSize bindings) with
      | none =>
        simp only [hp] at h ⊢
        exact h
      | some k =>
        simp only [hp] at h ⊢
        exact ih _ _ e h

theorem addStorage_error_indep (parse : String → Option Int) (app : QuotaAppInstance) :
    ∀ (q q2 : QuotaRequestResources) (e : String),
      addStorage parse app q = .error e → addStorage parse app q2 = .error e := by
  intro q q2 e h
  simp only [addStorage] at h ⊢
  cases hv : addVolumeStorage parse app.specVolumes app.volumes q with
  | ok qv =>
    rw [hv] at h
    simp [except_bind_ok] at h
  | error e2 =>
    rw [hv] at h
    simp only [except_bind_error] at h
    injection h with h
    subst h
    rw [addVolumeStorage_error_indep parse app.specVolumes app.volumes q q2 e2 hv]
    simp [except_bind_error]

/-- Claim C8: in the storage aggregation, the first binding that
targets the volume with an empty source-volume reference replaces the
declared size; an effective size of "" or "0" contributes nothing;
a remaining size the quantity parser rejects fails the aggregation
(and EnsureQuotaRequest then sets the quota condition to error and
returns the error); otherwise the parsed size is added to the sum. -/
theorem c8_storage_aggregation (parse : String → Option Int)
    (bindings : List VolumeBinding) (name declaredSize : String)
    (rest : List (String × String)) (q : QuotaRequestResources) :
    (∀ b pre post, bindings = pre ++ b :: post →
      (∀ b2, b2 ∈ pre → ¬(b2.target = name ∧ b2.volume = "")) →
      b.target = name → b.volume = "" →
      effectiveSize name declaredSize bindings = b.size) ∧
    ((∀ b, b ∈ bindings → ¬(b.target = name ∧ b.volume = "")) →
      effectiveSize name declaredSize bindings = declaredSize) ∧
    (effectiveSize name declaredSize bindings = "" ∨
        effectiveSize name declaredSize bindings = "0" →
      addVolumeStorage parse bindings ((name, declaredSize) :: rest) q =
        addVolumeStorage parse bindings rest q) ∧
    (¬(effectiveSize name declaredSize bindings = "" ∨
        effectiveSize name declaredSize bindings = "0") →
      parse (effectiveSize name declaredSize bindings) = none →
      ∃ e, addVolumeStorage parse bindings ((name, declaredSize) :: rest) q = .error e) ∧
    (∀ k, ¬(effectiveSize name declaredSize bindings = "" ∨
        effectiveSize name declaredSize bindings = "0") →
      parse (effectiveSize name declaredSize bindings) = some k →
      addVolumeStorage parse bindings ((name, declaredSize) :: rest) q =
        addVolumeStorage parse bindings rest
          { q with volumeStorage := q.volumeStorage + k }) ∧
    (∀ (app : QuotaAppInstance) (sched : String → Option Requirements) (e : String),
      addStorage parse app zeroResources = .error e →
      ensureQuotaRequest (.ok true) app sched parse =
        ⟨none, some (.error e), some e⟩) := by
  refine ⟨?_, ?_, ?_, ?_, ?_, ?_⟩
  · intro b pre post hb hpre h1 h2
    subst hb
    rw [effectiveSize, boundVolumeSize_first name b pre post hpre h1 h2]
  · intro hall
    rw [effectiveSize, boundVolumeSize_none name bindings hall]
  · intro hc
    simp only [addVolumeStorage]
    rw [if_pos hc]
  · intro hc hp
    simp only [addVolumeStorage]
    rw [if_neg hc]
    simp [hp]
  · intro k hc hp
    simp only [addVolumeStorage]
    rw [if_neg hc]
    simp [hp]
  · intro app sched e hstore
    simp only [ensureQuotaRequest]
    split
    · next e2 heq =>
      rw [addStorage_error_indep parse app zeroResources _ e hstore] at heq
      injection heq with heq
      subst heq
      rfl
    · next q3 heq =>
      rw [addStorage_error_indep parse app zeroResources _ e hstore] at heq
      exact absurd heq (by simp)

/-- Witness for C8: a parseable bound size is added to the storage sum. -/
theorem c8_storage_aggregation_witness :
    addVolumeStorage (fun s => if s = "5" then some 5 else none) [] [("v", "5")]
        zeroResources =
      addVolumeStorage (fun s => if s = "5" then some 5 else none) [] []
        { zeroResources with volumeStorage := zeroResources.volumeStorage + 5 } :=
  ((c8_storage_aggregation (fun s => if s = "5" then some 5 else none) [] "v" "5" []
      zeroResources).2.2.2.2.1) 5 (by decide) (by decide)

end Acorn
